import Mathlib

/-!
Verification of the EffectPlanner scheduling core (app.py).

Shallow embedding conventions:

* Python datetimes are naive local wall-clock values; the scheduling code
  (busy-interval extraction, overlap test, free-slot search) only ever
  compares them, adds whole-minute timedeltas, and extracts the calendar
  date.  We embed a datetime as an Int counting minutes from a fixed
  epoch midnight; a date (a day) is the Int number of that day, so a
  datetime t lies on day t / 1440 and its time of day is t % 1440
  (Lean's Int `/` and `%` are Euclidean, which for the positive divisors
  used here coincides with Python's floor division and modulo).
* Python date objects used by the calendar arithmetic (add_months) are
  embedded as explicit year/month/day records; for start_of_week, which
  only uses weekday() and whole-day timedelta arithmetic, we embed the
  date as its proleptic-Gregorian ordinal (Python date.toordinal), on
  which d.weekday() is (ordinal + 6) % 7 with Monday = 0.
* Python strings handled by the time parsing code are embedded as lists
  of characters; dt.datetime.strptime for the five fixed patterns is
  embedded by its documented matching semantics (regex alternatives
  tried in order with backtracking, then the whole input must have been
  consumed, else ValueError, which the source absorbs).
* JSON event dictionaries are embedded as records; ev.get("start") is
  kept in already-parsed form (an optional minute value, none when the
  stored string is missing or would not parse as an ISO datetime), since
  parsing itself is delegated by the source to the datetime library.
* Python exceptions never escape the functions under study (every parse
  is wrapped in try/except); the embedding is therefore total.
-/

/-- Time-of-day value, mirroring dt.time restricted to the hour and
minute fields that the program uses. -/
structure TimeHM where
  hour : Int
  minute : Int
deriving DecidableEq, Repr

/-- Calendar date as year/month/day, mirroring dt.date. -/
structure DateYMD where
  year : Int
  month : Int
  day : Int
deriving DecidableEq, Repr

/-- Stored event/task record, mirroring the JSON dictionaries in
events.json.  The start and end timestamps are embedded already parsed:
some t when the stored string is a well-formed ISO datetime denoting
minute t (of the global minute timeline), none when the field is missing
or unparseable, so the source's _parse_iso_dt becomes field access. -/
structure Event where
  kind : String
  allDay : Bool
  tags : List String
  start : Option Int
  end_ : Option Int
deriving DecidableEq, Repr

/-! Calendar arithmetic (source lines 144-169). -/

/-- Leap-year test of the proleptic Gregorian calendar, as implemented
by Python's datetime module. -/
def is_leap (y : Int) : Bool :=
  (y % 4 == 0 && y % 100 != 0) || y % 400 == 0

/-- Number of days in a month of the proleptic Gregorian calendar. -/
def days_in_month (y m : Int) : Int :=
  if m = 2 then (if is_leap y then 29 else 28)
  else if m = 4 ∨ m = 6 ∨ m = 9 ∨ m = 11 then 30
  else 31

/-- Decrement a Gregorian date by one day (the effect of subtracting
timedelta(days=1) from a dt.date). -/
def pred_day (x : DateYMD) : DateYMD :=
  if 1 < x.day then ⟨x.year, x.month, x.day - 1⟩
  else if 1 < x.month then ⟨x.year, x.month - 1, days_in_month x.year (x.month - 1)⟩
  else ⟨x.year - 1, 12, 31⟩

/-- Last calendar day of the given month: source last_day_of_month,
which returns date(y, 12, 31) for December and otherwise the day before
the first of the following month. -/
def last_day_of_month (y m : Int) : DateYMD :=
  if m = 12 then ⟨y, 12, 31⟩
  else pred_day ⟨y, m + 1, 1⟩

/-- First while loop of add_months: while m greater than 12, carry into
the year. -/
def monthNormUp (y m : Int) : Int × Int :=
  if 12 < m then monthNormUp (y + 1) (m - 12) else (y, m)
termination_by (m - 12).toNat
decreasing_by omega

/-- Second while loop of add_months: while m below 1, borrow from the
year. -/
def monthNormDown (y m : Int) : Int × Int :=
  if m < 1 then monthNormDown (y - 1) (m + 12) else (y, m)
termination_by (1 - m).toNat
decreasing_by omega

/-- Source add_months: shift the anchor by whole months, normalizing
the month into [1, 12] by the two while loops, then clamp the day to
the target month's last valid day. -/
def add_months (anchor : DateYMD) (delta_months : Int) : DateYMD :=
  let y := anchor.year
  let m := anchor.month + delta_months
  let p := monthNormUp y m
  let q := monthNormDown p.1 p.2
  let ld := last_day_of_month q.1 q.2
  let d := min anchor.day ld.day
  ⟨q.1, q.2, d⟩

/-- Python date.weekday() expressed on the date's proleptic-Gregorian
ordinal: Monday is 0, Sunday is 6, and ordinal 1 (0001-01-01) is a
Monday. -/
def weekday_of (n : Int) : Int :=
  (n + 6) % 7

/-- Source start_of_week on ordinals: subtract the weekday index for
Monday-first weeks, otherwise subtract (weekday + 1) % 7 to reach the
preceding or same Sunday. -/
def start_of_week (d : Int) (week_starts_monday : Bool) : Int :=
  let wd := weekday_of d
  if week_starts_monday then d - wd
  else d - ((wd + 1) % 7)

/-! AI time helpers (source lines 213-250). -/

/-- Source _time_from_minutes: clamp the minute count to [0, 23*60+59]
and split into hour and minute. -/
def _time_from_minutes (m : Int) : TimeHM :=
  let m2 := max 0 (min (23 * 60 + 59) m)
  ⟨m2 / 60, m2 % 60⟩

/-- Source suggest_research_time: fixed per-tag default start times with
a generic 17:00 fallback. -/
def suggest_research_time (tag : String) : TimeHM :=
  if tag = "School" then ⟨17, 0⟩
  else if tag = "Work" then ⟨16, 0⟩
  else if tag = "Family" then ⟨18, 30⟩
  else if tag = "Fitness" then ⟨16, 30⟩
  else if tag = "Health" then ⟨20, 0⟩
  else if tag = "Finance" then ⟨19, 0⟩
  else if tag = "Travel" then ⟨10, 0⟩
  else if tag = "Personal" then ⟨20, 30⟩
  else ⟨17, 0⟩

/-- Minute offsets collected by the loop in
suggest_best_time_from_history: events of kind event whose tag list
contains the tag contribute hour*60+minute of their stored start
timestamp, which for a timestamp at global minute t is t % 1440. -/
def history_mins (events : List Event) (tag : String) : List Int :=
  events.filterMap fun ev =>
    if ev.kind ≠ "event" then none
    else if tag ∉ ev.tags then none
    else match ev.start with
      | some t => some (t % 1440)
      | none => none

/-- Source suggest_best_time_from_history: mean of the matching events'
start-of-day minute offsets (Python's float mean truncated to an
integer, which on these nonnegative offsets is floor division), falling
back to suggest_research_time when no event matches. -/
def suggest_best_time_from_history (events : List Event) (tag : String) : TimeHM :=
  let mins := history_mins events tag
  if mins = [] then suggest_research_time tag
  else _time_from_minutes (mins.sum / (mins.length : Int))

/-! Busy-interval extraction and overlap test (source lines 265-286). -/

/-- Source _busy_intervals_for_date: keep non-all-day events of kind
event whose parsed start and end exist, whose start date equals the day,
and whose end is strictly after the start; sort the collected pairs
ascending by start.  Python's list.sort keyed on the start is a stable
sort; insertion sort with the at-most-on-keys relation is also stable,
so the two agree on every input. -/
def _busy_intervals_for_date (events : List Event) (day : Int) : List (Int × Int) :=
  let intervals := events.filterMap fun ev =>
    if ev.kind ≠ "event" then none
    else if ev.allDay then none
    else match ev.start, ev.end_ with
      | some s, some e =>
        if s / 1440 ≠ day then none
        else if e ≤ s then none
        else some (s, e)
      | _, _ => none
  intervals.insertionSort fun a b => a.1 ≤ b.1

/-- Source _overlaps: half-open interval overlap test. -/
def _overlaps (a_start a_end b_start b_end : Int) : Bool :=
  a_start < b_end && a_end > b_start

/-! Free-slot search (source lines 289-323). -/

/-- Inner scan of find_next_free_slot: the first busy interval (in list
order) overlapping the candidate window. -/
def findConflict (start end_ : Int) : List (Int × Int) → Option (Int × Int)
  | [] => none
  | (bs, be) :: rest =>
    if _overlaps start end_ bs be then some (bs, be)
    else findConflict start end_ rest

/-- Bounded loop of find_next_free_slot (for _ in range(200)): on a
conflict, jump to the conflicting interval's end, clamp to latest_start,
recompute the window end, and return early when the jump lands exactly
on latest_start; with no conflict return the current window; when the
fuel runs out return the last computed window. -/
def slot_scan (intervals : List (Int × Int)) (latest_start duration : Int) :
    Nat → Int → Int → Int × Int
  | 0, start, end_ => (start, end_)
  | fuel + 1, start, end_ =>
    match findConflict start end_ intervals with
    | none => (start, end_)
    | some c =>
      let start1 := if latest_start < c.2 then latest_start else c.2
      let end1 := start1 + duration
      if start1 = latest_start then (start1, end1)
      else slot_scan intervals latest_start duration fuel start1 end1

/-- Source find_next_free_slot: clamp the proposed start into the day
window [day_start, latest_start] with latest_start = day_end - duration
(itself clamped up to day_start), then resolve conflicts against the
day's sorted busy intervals with at most 200 forward jumps. -/
def find_next_free_slot (events : List Event) (day : Int)
    (proposed_start : Int) (duration_min : Int) : Int × Int :=
  let duration := duration_min
  let day_start := 1440 * day
  let day_end := 1440 * day + 1439
  let latest0 := day_end - duration
  let latest_start := if latest0 < day_start then day_start else latest0
  let start0 := max day_start proposed_start
  let start1 := if latest_start < start0 then latest_start else start0
  let end1 := start1 + duration
  let intervals := _busy_intervals_for_date events day
  if intervals = [] then (start1, end1)
  else slot_scan intervals latest_start duration 200 start1 end1

/-- Day-start minute of a day, 00:00 as a datetime. -/
def day_start_of (day : Int) : Int := 1440 * day

/-- Day-end minute of a day, 23:59 as a datetime. -/
def day_end_of (day : Int) : Int := 1440 * day + 1439

/-- Latest admissible slot start of a day for a duration: day end minus
duration, clamped up to day start. -/
def latest_start_of (day duration : Int) : Int :=
  max (day_end_of day - duration) (day_start_of day)

/-- The busy intervals of the day cover every minute of the day, from
00:00 through 23:59. -/
def covers_day (events : List Event) (day : Int) : Prop :=
  ∀ t : Int, day_start_of day ≤ t → t ≤ day_end_of day →
    ∃ q ∈ _busy_intervals_for_date events day, q.1 ≤ t ∧ t < q.2

/-! Manual time parsing (source lines 329-349).  The five strptime
patterns are embedded by the matching semantics of Python's _strptime
implementation: each directive is a regex fragment whose alternatives
are tried in order with backtracking (%I is 1[0-2]|0[1-9]|[1-9], %H is
2[0-3]|[0-1]d|d, %M is [0-5]d|d, %p is AM|PM on the already-uppercased
text, a space matches one or more whitespace characters greedily), the
first full-pattern match is taken, and any unconsumed trailing input
makes strptime raise, which the source turns into trying the next
pattern. -/

/-- Python str.strip on a character list. -/
def stripChars (s : List Char) : List Char :=
  ((s.dropWhile Char.isWhitespace).reverse.dropWhile Char.isWhitespace).reverse

/-- Python str.upper on a character list. -/
def upperChars (s : List Char) : List Char :=
  s.map Char.toUpper

/-- Python str.replace of every period by the empty string. -/
def removeDots (s : List Char) : List Char :=
  s.filter (fun c => c ≠ '.')

/-- Numeric value of a decimal digit character. -/
def digitVal (c : Char) : Int :=
  (c.toNat : Int) - 48

/-- Candidate matches of the strptime %I directive (hour 01-12), in
regex alternation order, each with the remaining input. -/
def matchI : List Char → List (Int × List Char)
  | c1 :: c2 :: rest =>
    (if c1 = '1' ∧ '0' ≤ c2 ∧ c2 ≤ '2' then [(10 + digitVal c2, rest)] else [])
      ++ (if c1 = '0' ∧ '1' ≤ c2 ∧ c2 ≤ '9' then [(digitVal c2, rest)] else [])
      ++ (if '1' ≤ c1 ∧ c1 ≤ '9' then [(digitVal c1, c2 :: rest)] else [])
  | [c1] => if '1' ≤ c1 ∧ c1 ≤ '9' then [(digitVal c1, [])] else []
  | [] => []

/-- Candidate matches of the strptime %H directive (hour 00-23). -/
def matchH : List Char → List (Int × List Char)
  | c1 :: c2 :: rest =>
    (if c1 = '2' ∧ '0' ≤ c2 ∧ c2 ≤ '3' then [(20 + digitVal c2, rest)] else [])
      ++ (if ('0' ≤ c1 ∧ c1 ≤ '1') ∧ c2.isDigit then [(10 * digitVal c1 + digitVal c2, rest)] else [])
      ++ (if c1.isDigit then [(digitVal c1, c2 :: rest)] else [])
  | [c1] => if c1.isDigit then [(digitVal c1, [])] else []
  | [] => []

/-- Candidate matches of the strptime %M directive (minute 00-59). -/
def matchM : List Char → List (Int × List Char)
  | c1 :: c2 :: rest =>
    (if ('0' ≤ c1 ∧ c1 ≤ '5') ∧ c2.isDigit then [(10 * digitVal c1 + digitVal c2, rest)] else [])
      ++ (if c1.isDigit then [(digitVal c1, c2 :: rest)] else [])
  | [c1] => if c1.isDigit then [(digitVal c1, [])] else []
  | [] => []

/-- Candidate matches of a whitespace run in the pattern: one or more
whitespace characters, longest consumption first (greedy). -/
def matchSp : List Char → List (List Char)
  | c :: rest => if c.isWhitespace then matchSp rest ++ [rest] else []
  | [] => []

/-- Match of the strptime %p directive on the uppercased text: AM gives
false, PM gives true. -/
def matchP : List Char → List (Bool × List Char)
  | 'A' :: 'M' :: rest => [(false, rest)]
  | 'P' :: 'M' :: rest => [(true, rest)]
  | _ => []

/-- Match of a literal character of the pattern. -/
def matchLit (ch : Char) : List Char → List (List Char)
  | c :: rest => if c = ch then [rest] else []
  | [] => []

/-- Conversion of a matched %I hour and %p marker to a 24-hour time,
as done by strptime: AM maps hour 12 to 0, PM adds 12 except to 12. -/
def time12 (h mnt : Int) (pm : Bool) : TimeHM :=
  if pm then (if h = 12 then ⟨12, mnt⟩ else ⟨h + 12, mnt⟩)
  else (if h = 12 then ⟨0, mnt⟩ else ⟨h, mnt⟩)

/-- Matcher for the pattern I-space-p, with the remaining input. -/
def runIp (cs : List Char) : Option (TimeHM × List Char) :=
  (matchI cs).findSome? fun a =>
    (matchSp a.2).findSome? fun r2 =>
      (matchP r2).findSome? fun b => some (time12 a.1 0 b.1, b.2)

/-- Matcher for the pattern I-colon-M-space-p. -/
def runIMp (cs : List Char) : Option (TimeHM × List Char) :=
  (matchI cs).findSome? fun a =>
    (matchLit ':' a.2).findSome? fun r1 =>
      (matchM r1).findSome? fun m =>
        (matchSp m.2).findSome? fun r2 =>
          (matchP r2).findSome? fun b => some (time12 a.1 m.1 b.1, b.2)

/-- Matcher for the pattern I-p with no separator. -/
def runIpTight (cs : List Char) : Option (TimeHM × List Char) :=
  (matchI cs).findSome? fun a =>
    (matchP a.2).findSome? fun b => some (time12 a.1 0 b.1, b.2)

/-- Matcher for the pattern I-colon-M-p with no separator. -/
def runIMpTight (cs : List Char) : Option (TimeHM × List Char) :=
  (matchI cs).findSome? fun a =>
    (matchLit ':' a.2).findSome? fun r1 =>
      (matchM r1).findSome? fun m =>
        (matchP m.2).findSome? fun b => some (time12 a.1 m.1 b.1, b.2)

/-- Matcher for the pattern H-colon-M. -/
def runHM (cs : List Char) : Option (TimeHM × List Char) :=
  (matchH cs).findSome? fun a =>
    (matchLit ':' a.2).findSome? fun r1 =>
      (matchM r1).findSome? fun m => some (⟨a.1, m.1⟩, m.2)

/-- The fixed ordered list of candidate format matchers of the source
(the list named candidates in _parse_time_12h). -/
def candidate_runs : List (List Char → Option (TimeHM × List Char)) :=
  [runIp, runIMp, runIpTight, runIMpTight, runHM]

/-- Loop over the candidate formats: the first format that matches the
whole text yields its parsed time; a match with unconsumed trailing
input raises inside strptime and is absorbed, moving to the next
format. -/
def try_formats : List (List Char → Option (TimeHM × List Char)) → List Char → Option TimeHM
  | [], _ => none
  | f :: fs, cs =>
    match f cs with
    | some (t, []) => some t
    | _ => try_formats fs cs

/-- Source _parse_time_12h: strip, uppercase and de-period the input,
return the fallback on empty text, try the five formats in order, and
return the fallback when all fail.  The non-string input branch of the
source is outside this embedding, whose input is always a string. -/
def _parse_time_12h (s : List Char) (fallback : TimeHM) : TimeHM :=
  let text := removeDots (upperChars (stripChars s))
  if text = [] then fallback
  else
    match try_formats candidate_runs text with
    | some t => ⟨t.hour, t.minute⟩
    | none => fallback

/-! Concrete inputs used to settle the claims. -/

/-- One stored timed event on day 0 from minute 1200 to minute 1320
(20:00 to 22:00). -/
def coveringEvent : Event :=
  ⟨"event", false, [], some 1200, some 1320⟩

/-- One stored timed event occupying all of day 0 (00:00 to 24:00). -/
def wholeDayEvent : Event :=
  ⟨"event", false, [], some 0, some 1440⟩

/-- A day fully covered by 202 events: the 201 one-minute events
[i, i+1) for i below 201, then one event [201, 1440). -/
def manySmallEvents : List Event :=
  ((List.range 201).map fun i =>
    ⟨"event", false, [], some (i : Int), some ((i : Int) + 1)⟩)
    ++ [⟨"event", false, [], some 201, some 1440⟩]

/-- The busy intervals of manySmallEvents on day 0, written out. -/
def manySmallIntervals : List (Int × Int) :=
  ((List.range 201).map fun i => ((i : Int), (i : Int) + 1)) ++ [(201, 1440)]

/-- Three stored events tagged Fitness starting at minutes 600, 660 and
720 of day 0 (10:00, 11:00 and 12:00). -/
def fitnessHistory : List Event :=
  [⟨"event", false, ["Fitness"], some 600, none⟩,
   ⟨"event", false, ["Fitness"], some 660, none⟩,
   ⟨"event", false, ["Fitness"], some 720, none⟩]

/-! Helper lemmas. -/

/-- Unfolding of monthNormUp over a fuel bound on how far the month
exceeds 12. -/
lemma monthNormUp_spec : ∀ (k : Nat) (y m : Int), m - 12 ≤ k →
    12 * (monthNormUp y m).1 + (monthNormUp y m).2 = 12 * y + m ∧
    (monthNormUp y m).2 ≤ 12 ∧ (1 ≤ m → 1 ≤ (monthNormUp y m).2) := by
  intro k
  induction k with
  | zero =>
    intro y m hm
    rw [monthNormUp, if_neg (by omega)]
    exact ⟨by ring, by omega, fun h => h⟩
  | succ n ih =>
    intro y m hm
    by_cases h : 12 < m
    · rw [monthNormUp, if_pos h]
      obtain ⟨h1, h2, h3⟩ := ih (y + 1) (m - 12) (by omega)
      exact ⟨by omega, h2, fun _ => h3 (by omega)⟩
    · rw [monthNormUp, if_neg h]
      exact ⟨by ring, by omega, fun hh => hh⟩

/-- Unfolding of monthNormDown over a fuel bound on how far the month
falls below 1. -/
lemma monthNormDown_spec : ∀ (k : Nat) (y m : Int), 1 - m ≤ k →
    12 * (monthNormDown y m).1 + (monthNormDown y m).2 = 12 * y + m ∧
    1 ≤ (monthNormDown y m).2 ∧ (m ≤ 12 → (monthNormDown y m).2 ≤ 12) := by
  intro k
  induction k with
  | zero =>
    intro y m hm
    rw [monthNormDown, if_neg (by omega)]
    exact ⟨by ring, by omega, fun h => h⟩
  | succ n ih =>
    intro y m hm
    by_cases h : m < 1
    · rw [monthNormDown, if_pos h]
      obtain ⟨h1, h2, h3⟩ := ih (y - 1) (m + 12) (by omega)
      exact ⟨by omega, h2, fun _ => h3 (by omega)⟩
    · rw [monthNormDown, if_neg h]
      exact ⟨by ring, by omega, fun hh => hh⟩

/-- A conflict found by findConflict is a member of the interval list
and overlaps the candidate window. -/
lemma findConflict_some {s e : Int} {l : List (Int × Int)} {c : Int × Int}
    (h : findConflict s e l = some c) :
    c ∈ l ∧ _overlaps s e c.1 c.2 = true := by
  induction l with
  | nil => simp [findConflict] at h
  | cons q rest ih =>
    rw [findConflict] at h
    by_cases hov : _overlaps s e q.1 q.2 = true
    · rw [if_pos hov] at h
      cases h
      exact ⟨List.mem_cons_self _ _, hov⟩
    · rw [if_neg hov] at h
      obtain ⟨hm, ho⟩ := ih h
      exact ⟨List.mem_cons_of_mem _ hm, ho⟩

/-- If some interval of the list overlaps the candidate window, then
findConflict finds a conflict. -/
lemma findConflict_isSome {s e : Int} {l : List (Int × Int)} {q : Int × Int}
    (hq : q ∈ l) (hov : _overlaps s e q.1 q.2 = true) :
    ∃ c, findConflict s e l = some c := by
  induction l with
  | nil => simp at hq
  | cons r rest ih =>
    rw [findConflict]
    by_cases hr : _overlaps s e r.1 r.2 = true
    · exact ⟨r, if_pos hr⟩
    · rw [if_neg hr]
      rcases List.mem_cons.1 hq with h | h
      · subst h; exact absurd hov hr
      · exact ih h

/-- The scan loop preserves the window length: called with a window of
length dur, it returns a window of length dur. -/
lemma slot_scan_snd : ∀ (fuel : Nat) (l : List (Int × Int)) (latest dur s : Int),
    (slot_scan l latest dur fuel s (s + dur)).2
      = (slot_scan l latest dur fuel s (s + dur)).1 + dur := by
  intro fuel
  induction fuel with
  | zero => intro l latest dur s; rfl
  | succ n ih =>
    intro l latest dur s
    rw [slot_scan]
    rcases hc : findConflict s (s + dur) l with _ | c
    · rfl
    · dsimp only
      by_cases hl : (if latest < c.2 then latest else c.2) = latest
      · rw [if_pos hl]
      · rw [if_neg hl]
        exact ih l latest dur (if latest < c.2 then latest else c.2)

/-- The scan loop keeps the window start inside [lo, latest] whenever
it starts there. -/
lemma slot_scan_range : ∀ (fuel : Nat) (l : List (Int × Int)) (latest dur lo s : Int),
    lo ≤ s → s ≤ latest →
    lo ≤ (slot_scan l latest dur fuel s (s + dur)).1 ∧
    (slot_scan l latest dur fuel s (s + dur)).1 ≤ latest := by
  intro fuel
  induction fuel with
  | zero => intro l latest dur lo s h1 h2; exact ⟨h1, h2⟩
  | succ n ih =>
    intro l latest dur lo s h1 h2
    rw [slot_scan]
    rcases hc : findConflict s (s + dur) l with _ | c
    · exact ⟨h1, h2⟩
    · dsimp only
      have hov := (findConflict_some hc).2
      have hsc : s < c.2 := by
        simp only [_overlaps, Bool.and_eq_true, decide_eq_true_eq] at hov
        exact hov.1
      by_cases hl : (if latest < c.2 then latest else c.2) = latest
      · rw [if_pos hl]
        exact ⟨by simp only []; rw [hl]; omega, by simp only []; rw [hl]⟩
      · rw [if_neg hl]
        refine ih l latest dur lo (if latest < c.2 then latest else c.2) ?_ ?_
        · split <;> omega
        · split <;> omega

/-! Claim theorems. -/

/-- C4: the overlap predicate used by slot resolution is strict
half-open: intervals overlap exactly when aStart is below bEnd and aEnd
is above bStart, and two intervals sharing only a boundary instant do
not overlap. -/
theorem c4_overlaps_half_open : ∀ a_start a_end b_start b_end : Int,
    (_overlaps a_start a_end b_start b_end = true ↔
      a_start < b_end ∧ a_end > b_start) ∧
    (a_end = b_start → _overlaps a_start a_end b_start b_end = false) := by
  intro a b c d
  constructor
  · simp [_overlaps]
  · intro h
    simp only [_overlaps, Bool.and_eq_false_iff, decide_eq_false_iff_not]
    omega

/-- Witness for C4 at the concrete boundary-touching input
[3, 5) and [5, 9). -/
theorem c4_overlaps_half_open_witness : _overlaps 3 5 5 9 = false :=
  (c4_overlaps_half_open 3 5 5 9).2 rfl

/-- C7: start_of_week is idempotent, and under the Sunday-first
convention it returns a date at most six days earlier whose weekday is
Sunday (index 6). -/
theorem c7_start_of_week : ∀ (d : Int) (f : Bool),
    start_of_week (start_of_week d f) f = start_of_week d f ∧
    (f = false →
      d - 6 ≤ start_of_week d false ∧ start_of_week d false ≤ d ∧
      weekday_of (start_of_week d false) = 6) := by
  intro d f
  cases f with
  | false =>
    refine ⟨?_, fun _ => ⟨?_, ?_, ?_⟩⟩ <;>
      simp only [start_of_week, weekday_of, Bool.false_eq_true, if_false] <;> omega
  | true =>
    refine ⟨?_, fun h => by cases h⟩
    simp only [start_of_week, weekday_of, if_true]
    omega

/-- Witness for C7 at the concrete ordinal 738885 (a Sunday) under the
Sunday-first convention. -/
theorem c7_start_of_week_witness :
    start_of_week (start_of_week 738885 false) false = start_of_week 738885 false ∧
    weekday_of (start_of_week 738885 false) = 6 :=
  ⟨(c7_start_of_week 738885 false).1,
   (((c7_start_of_week 738885 false).2 rfl).2).2⟩

/-- C6: add_months normalizes the month into [1, 12] carrying into the
year (conserving the total month count), clamps the day to the target
month's last valid day, and in particular maps 2023-01-31 one month on
to 2023-02-28 and 2024-01-31 one month on to 2024-02-29. -/
theorem c6_add_months : ∀ (anchor : DateYMD) (delta : Int),
    (1 ≤ (add_months anchor delta).month ∧ (add_months anchor delta).month ≤ 12 ∧
      12 * (add_months anchor delta).year + (add_months anchor delta).month
        = 12 * anchor.year + anchor.month + delta ∧
      (add_months anchor delta).day
        = min anchor.day
            (last_day_of_month (add_months anchor delta).year
              (add_months anchor delta).month).day) ∧
    add_months ⟨2023, 1, 31⟩ 1 = ⟨2023, 2, 28⟩ ∧
    add_months ⟨2024, 1, 31⟩ 1 = ⟨2024, 2, 29⟩ := by
  intro anchor delta
  obtain ⟨u1, u2, _⟩ :=
    monthNormUp_spec (anchor.month + delta - 12).toNat anchor.year
      (anchor.month + delta) (by omega)
  obtain ⟨d1, d2, d3⟩ :=
    monthNormDown_spec
      (1 - (monthNormUp anchor.year (anchor.month + delta)).2).toNat
      (monthNormUp anchor.year (anchor.month + delta)).1
      (monthNormUp anchor.year (anchor.month + delta)).2 (by omega)
  refine ⟨⟨d2, d3 u2, by simp only [add_months]; omega, by simp only [add_months]⟩, ?_, ?_⟩
  · have h1 : monthNormUp 2023 2 = (2023, 2) := by
      rw [monthNormUp]; norm_num
    have h2 : monthNormDown 2023 2 = (2023, 2) := by
      rw [monthNormDown]; norm_num
    simp [add_months, h1, h2, last_day_of_month, pred_day, days_in_month, is_leap]
  · have h1 : monthNormUp 2024 2 = (2024, 2) := by
      rw [monthNormUp]; norm_num
    have h2 : monthNormDown 2024 2 = (2024, 2) := by
      rw [monthNormDown]; norm_num
    simp [add_months, h1, h2, last_day_of_month, pred_day, days_in_month, is_leap]

/-- C1: for every event list, day, proposed start and strictly positive
duration, find_next_free_slot returns a window whose length is exactly
the requested duration (the function is total, hence never raises and
always yields a concrete interval). -/
theorem c1_slot_duration : ∀ (events : List Event) (day p d : Int),
    0 < d →
    (find_next_free_slot events day p d).2
      - (find_next_free_slot events day p d).1 = d := by
  intro events day p d _
  simp only [find_next_free_slot]
  split
  · omega
  · have := slot_scan_snd 200 (_busy_intervals_for_date events day)
      (if 1440 * day + 1439 - d < 1440 * day then 1440 * day else 1440 * day + 1439 - d)
      d
      (if (if 1440 * day + 1439 - d < 1440 * day then 1440 * day else 1440 * day + 1439 - d) <
            max (1440 * day) p
        then (if 1440 * day + 1439 - d < 1440 * day then 1440 * day else 1440 * day + 1439 - d)
        else max (1440 * day) p)
    omega

/-- Witness for C1 on an empty store, day 0, proposed 09:00, 60
minutes. -/
theorem c1_slot_duration_witness :
    (0 : Int) < 60 ∧
    (find_next_free_slot [] 0 540 60).2 - (find_next_free_slot [] 0 540 60).1 = 60 :=
  ⟨by norm_num, c1_slot_duration [] 0 540 60 (by norm_num)⟩

/-- C10: the returned start always lies in [dayStart, latestStart],
the window length always equals the requested duration, and when the
duration exceeds the day's 1439-minute span the returned end extends
strictly past 23:59 of the day. -/
theorem c10_slot_invariants : ∀ (events : List Event) (day p d : Int),
    0 < d →
    day_start_of day ≤ (find_next_free_slot events day p d).1 ∧
    (find_next_free_slot events day p d).1 ≤ latest_start_of day d ∧
    (find_next_free_slot events day p d).2
      - (find_next_free_slot events day p d).1 = d ∧
    (1439 < d → day_end_of day < (find_next_free_slot events day p d).2) := by
  intro events day p d hd
  have hlen : (find_next_free_slot events day p d).2
      - (find_next_free_slot events day p d).1 = d := by
    simp only [find_next_free_slot]
    split
    · omega
    · have := slot_scan_snd 200 (_busy_intervals_for_date events day)
        (if 1440 * day + 1439 - d < 1440 * day then 1440 * day else 1440 * day + 1439 - d)
        d
        (if (if 1440 * day + 1439 - d < 1440 * day then 1440 * day else 1440 * day + 1439 - d) <
              max (1440 * day) p
          then (if 1440 * day + 1439 - d < 1440 * day then 1440 * day else 1440 * day + 1439 - d)
          else max (1440 * day) p)
      omega
  have hrange : day_start_of day ≤ (find_next_free_slot events day p d).1 ∧
      (find_next_free_slot events day p d).1 ≤ latest_start_of day d := by
    simp only [find_next_free_slot]
    split
    · constructor <;> simp only [day_start_of, latest_start_of, day_end_of] <;> split <;> omega
    · have := slot_scan_range 200 (_busy_intervals_for_date events day)
        (if 1440 * day + 1439 - d < 1440 * day then 1440 * day else 1440 * day + 1439 - d)
        d (1440 * day)
        (if (if 1440 * day + 1439 - d < 1440 * day then 1440 * day else 1440 * day + 1439 - d) <
              max (1440 * day) p
          then (if 1440 * day + 1439 - d < 1440 * day then 1440 * day else 1440 * day + 1439 - d)
          else max (1440 * day) p)
        (by split <;> omega) (by split <;> omega)
      constructor <;> simp only [day_start_of, latest_start_of, day_end_of] <;> omega
  refine ⟨hrange.1, hrange.2, hlen, fun hbig => ?_⟩
  have := hrange.1
  simp only [day_start_of, day_end_of] at *
  omega

/-- Witness for C10 on an over-long duration: empty store, day 0,
proposed 09:00, 2000 minutes. -/
theorem c10_slot_invariants_witness :
    (0 : Int) < 2000 ∧
    day_start_of 0 ≤ (find_next_free_slot [] 0 540 2000).1 ∧
    (find_next_free_slot [] 0 540 2000).1 ≤ latest_start_of 0 2000 ∧
    (find_next_free_slot [] 0 540 2000).2 - (find_next_free_slot [] 0 540 2000).1 = 2000 ∧
    ((1439 : Int) < 2000 → day_end_of 0 < (find_next_free_slot [] 0 540 2000).2) :=
  ⟨by norm_num, c10_slot_invariants [] 0 540 2000 (by norm_num)⟩

/-- C8: suggest_best_time_from_history averages the start-of-day minute
offsets of the stored events of kind event carrying the tag, yields
11:00 on the three Fitness events at offsets 600, 660 and 720, and
falls back to the per-tag default when nothing matches. -/
theorem c8_suggest_best_time : ∀ (events : List Event) (tag : String),
    (suggest_best_time_from_history events tag =
      (fun mins =>
        if mins = [] then suggest_research_time tag
        else _time_from_minutes (mins.sum / (mins.length : Int)))
      (events.filterMap fun ev =>
        if ev.kind = "event" ∧ tag ∈ ev.tags then Option.map (fun t => t % 1440) ev.start
        else none)) ∧
    suggest_best_time_from_history fitnessHistory "Fitness" = ⟨11, 0⟩ ∧
    suggest_best_time_from_history [] tag = suggest_research_time tag := by
  intro events tag
  have hmins : history_mins events tag =
      events.filterMap fun ev =>
        if ev.kind = "event" ∧ tag ∈ ev.tags then Option.map (fun t => t % 1440) ev.start
        else none := by
    unfold history_mins
    congr 1
    funext ev
    by_cases h1 : ev.kind = "event" <;> by_cases h2 : tag ∈ ev.tags <;>
      cases ev.start <;> simp [h1, h2]
  refine ⟨?_, by decide, rfl⟩
  simp only [suggest_best_time_from_history, hmins]

/-- C5: the busy intervals of a day are exactly the start-end pairs of
the non-all-day stored events of kind event with a parsed start on the
day and a strictly later parsed end, and the returned list is sorted
ascending by start. -/
theorem c5_busy_intervals : ∀ (events : List Event) (day : Int),
    (_busy_intervals_for_date events day).Perm
      (events.filterMap fun ev =>
        match ev.start, ev.end_ with
        | some s, some e =>
          if ev.kind = "event" ∧ ev.allDay = false ∧ s / 1440 = day ∧ s < e
          then some (s, e) else none
        | _, _ => none) ∧
    List.Pairwise (fun a b : Int × Int => a.1 ≤ b.1) (_busy_intervals_for_date events day) := by
  intro events day
  have hfg : (events.filterMap fun ev =>
      if ev.kind ≠ "event" then none
      else if ev.allDay then none
      else match ev.start, ev.end_ with
        | some s, some e =>
          if s / 1440 ≠ day then none
          else if e ≤ s then none
          else some (s, e)
        | _, _ => none) =
      (events.filterMap fun ev =>
        match ev.start, ev.end_ with
        | some s, some e =>
          if ev.kind = "event" ∧ ev.allDay = false ∧ s / 1440 = day ∧ s < e
          then some (s, e) else none
        | _, _ => none) := by
    congr 1
    funext ev
    rcases ev with ⟨k, ad, tg, st, en⟩
    cases st <;> cases en <;>
      simp only [] <;>
      by_cases h1 : k = "event" <;> cases ad <;> simp [h1] <;> split_ifs <;>
        simp_all <;> omega
  constructor
  · simp only [_busy_intervals_for_date]
    exact (List.perm_insertionSort _ _).trans (hfg ▸ List.Perm.refl _)
  · simp only [_busy_intervals_for_date]
    haveI : IsTotal (Int × Int) (fun a b : Int × Int => a.1 ≤ b.1) :=
      ⟨fun a b => le_total a.1 b.1⟩
    haveI : IsTrans (Int × Int) (fun a b : Int × Int => a.1 ≤ b.1) :=
      ⟨fun a b c h1 h2 => le_trans h1 h2⟩
    exact List.sorted_insertionSort _ _

/-- Behavior of the scan loop on a single busy interval: when the
initial window conflicts, the returned start is the interval's end
clamped to latest_start. -/
lemma slot_scan_one (bs be latest dur s : Int)
    (h : _overlaps s (s + dur) bs be = true) :
    (slot_scan [(bs, be)] latest dur 200 s (s + dur)).1 = min be latest := by
  have hc : findConflict s (s + dur) [(bs, be)] = some (bs, be) := by
    rw [findConflict, if_pos h]
  rw [show (200 : Nat) = 199 + 1 from rfl, slot_scan, hc]
  dsimp only
  by_cases hlt : latest < be
  · simp only [if_pos hlt, if_true]
    omega
  · simp only [if_neg hlt]
    by_cases heq : be = latest
    · rw [if_pos heq]
      omega
    · rw [if_neg heq]
      have hn : findConflict be (be + dur) [(bs, be)] = none := by
        rw [findConflict, if_neg (by simp [_overlaps])]
        rfl
      rw [show (199 : Nat) = 198 + 1 from rfl, slot_scan, hn]
      dsimp only
      omega

/-- C2 amended: with exactly one busy interval covering the proposed
window, the returned start is the interval's end clamped to
latestStart: at or after the interval's end when that end does not
exceed latestStart, and latestStart otherwise. -/
theorem c2_single_interval_amended : ∀ (events : List Event) (day p d : Int),
    0 < d →
    day_start_of day ≤ p → p ≤ day_end_of day →
    _busy_intervals_for_date events day = [(p, p + d)] →
    (find_next_free_slot events day p d).1 = min (p + d) (latest_start_of day d) := by
  intro events day p d hd h1 h2 hB
  simp only [day_start_of] at h1
  simp only [day_end_of] at h2
  simp only [find_next_free_slot, hB]
  rw [if_neg (by simp)]
  rw [max_eq_right h1]
  by_cases hds : 1440 * day + 1439 - d < 1440 * day
  · simp only [if_pos hds]
    by_cases hp : 1440 * day < p
    · simp only [if_pos hp]
      rw [slot_scan_one p (p + d) (1440 * day) d (1440 * day)
        (by simp only [_overlaps, Bool.and_eq_true, decide_eq_true_eq]; omega)]
      simp only [latest_start_of, day_end_of, day_start_of]
      omega
    · simp only [if_neg hp]
      rw [slot_scan_one p (p + d) (1440 * day) d p
        (by simp only [_overlaps, Bool.and_eq_true, decide_eq_true_eq]; omega)]
      simp only [latest_start_of, day_end_of, day_start_of]
      omega
  · simp only [if_neg hds]
    by_cases hp : 1440 * day + 1439 - d < p
    · simp only [if_pos hp]
      by_cases hpe : p = 1440 * day + 1439
      · have hn : findConflict (1440 * day + 1439 - d) (1440 * day + 1439 - d + d)
            [(p, p + d)] = none := by
          rw [findConflict,
            if_neg (by simp only [_overlaps, Bool.and_eq_true, decide_eq_true_eq]; omega)]
          rfl
        rw [show (200 : Nat) = 199 + 1 from rfl, slot_scan, hn]
        dsimp only
        simp only [latest_start_of, day_end_of, day_start_of]
        omega
      · rw [slot_scan_one p (p + d) (1440 * day + 1439 - d) d (1440 * day + 1439 - d)
          (by simp only [_overlaps, Bool.and_eq_true, decide_eq_true_eq]; omega)]
        simp only [latest_start_of, day_end_of, day_start_of]
        omega
    · simp only [if_neg hp]
      rw [slot_scan_one p (p + d) (1440 * day + 1439 - d) d p
        (by simp only [_overlaps, Bool.and_eq_true, decide_eq_true_eq]; omega)]
      simp only [latest_start_of, day_end_of, day_start_of]
      omega

/-- Witness for the amended C2: one event from 10:00 to 11:00 on day 0
with the same proposed window. -/
theorem c2_single_interval_amended_witness :
    (find_next_free_slot [⟨"event", false, [], some 600, some 660⟩] 0 600 60).1
      = min (600 + 60) (latest_start_of 0 60) :=
  c2_single_interval_amended [⟨"event", false, [], some 600, some 660⟩] 0 600 60
    (by norm_num) (by norm_num [day_start_of]) (by norm_num [day_end_of]) (by decide)

/-- Counterexample to C2 as stated: one busy interval from 20:00 to
22:00 on day 0 exactly covers the proposed two-hour window, yet the
returned start 21:59 (latestStart) is strictly before the interval's
end 22:00. -/
theorem c2_single_interval_counterexample :
    _busy_intervals_for_date [coveringEvent] 0 = [(1200, 1200 + 120)] ∧
    find_next_free_slot [coveringEvent] 0 1200 120 = (1319, 1439) ∧
    ¬ (1200 + 120 ≤ (find_next_free_slot [coveringEvent] 0 1200 120).1) := by
  refine ⟨by decide, by decide, by decide⟩

/-- Filtering with a stronger predicate keeps at most as many
elements. -/
lemma length_filter_mono {α : Type} (P Q : α → Bool)
    (h : ∀ x, P x = true → Q x = true) :
    ∀ l : List α, (l.filter P).length ≤ (l.filter Q).length := by
  intro l
  induction l with
  | nil => simp
  | cons a l ih =>
    by_cases hp : P a = true
    · rw [List.filter_cons_of_pos hp, List.filter_cons_of_pos (h a hp)]
      simpa using ih
    · rw [List.filter_cons_of_neg (by simpa using hp)]
      by_cases hq : Q a = true
      · rw [List.filter_cons_of_pos hq]
        exact le_trans ih (by simp)
      · rw [List.filter_cons_of_neg (by simpa using hq)]
        exact ih

/-- Filtering with a strictly stronger predicate, witnessed by a member
kept by the weak predicate and dropped by the strong one, keeps
strictly fewer elements. -/
lemma length_filter_strict {α : Type} (P Q : α → Bool)
    (h : ∀ x, P x = true → Q x = true) :
    ∀ l : List α, ∀ c ∈ l, Q c = true → P c = false →
      (l.filter P).length < (l.filter Q).length := by
  intro l
  induction l with
  | nil => simp
  | cons a l ih =>
    intro c hc hQ hP
    rcases List.mem_cons.1 hc with rfl | hmem
    · rw [List.filter_cons_of_neg (by simp [hP]), List.filter_cons_of_pos hQ]
      exact Nat.lt_succ_of_le (length_filter_mono P Q h l)
    · by_cases hp : P a = true
      · rw [List.filter_cons_of_pos hp, List.filter_cons_of_pos (h a hp)]
        simpa using ih c hmem hQ hP
      · rw [List.filter_cons_of_neg (by simpa using hp)]
        by_cases hq : Q a = true
        · rw [List.filter_cons_of_pos hq]
          exact Nat.lt_succ_of_lt (ih c hmem hQ hP)
        · rw [List.filter_cons_of_neg (by simpa using hq)]
          exact ih c hmem hQ hP

/-- When the busy intervals cover every minute of [lo, latest] and the
fuel exceeds the number of intervals still reachable by forward jumps,
the scan loop ends exactly at latest. -/
lemma slot_scan_covered : ∀ (fuel : Nat) (l : List (Int × Int)) (latest dur lo s : Int),
    0 < dur → lo ≤ latest →
    (∀ t : Int, lo ≤ t → t ≤ latest → ∃ q ∈ l, q.1 ≤ t ∧ t < q.2) →
    lo ≤ s → s ≤ latest →
    (l.filter fun q => decide (s < q.2) && decide (q.2 ≤ latest)).length < fuel →
    (slot_scan l latest dur fuel s (s + dur)).1 = latest := by
  intro fuel
  induction fuel with
  | zero =>
    intro l latest dur lo s _ _ _ _ _ hlen
    exact absurd hlen (Nat.not_lt_zero _)
  | succ n ih =>
    intro l latest dur lo s hdur hll hcov hlos hsl hlen
    obtain ⟨q, hq, hq1, hq2⟩ := hcov s hlos hsl
    have hov : _overlaps s (s + dur) q.1 q.2 = true := by
      simp only [_overlaps, Bool.and_eq_true, decide_eq_true_eq]
      omega
    obtain ⟨c, hc⟩ := findConflict_isSome hq hov
    have hcprop := findConflict_some hc
    have hsc : s < c.2 := by
      have := hcprop.2
      simp only [_overlaps, Bool.and_eq_true, decide_eq_true_eq] at this
      omega
    rw [slot_scan, hc]
    dsimp only
    by_cases hlt : latest < c.2
    · simp only [if_pos hlt, if_true]
    · simp only [if_neg hlt]
      by_cases heq : c.2 = latest
      · rw [if_pos heq]
        exact heq
      · rw [if_neg heq]
        refine ih l latest dur lo c.2 hdur hll hcov (by omega) (by omega) ?_
        have hstep := length_filter_strict
          (fun q => decide (c.2 < q.2) && decide (q.2 ≤ latest))
          (fun q => decide (s < q.2) && decide (q.2 ≤ latest))
          (by
            intro x hx
            simp only [Bool.and_eq_true, decide_eq_true_eq] at *
            omega)
          l c hcprop.1
          (by simp only [Bool.and_eq_true, decide_eq_true_eq]; omega)
          (by simp only [Bool.and_eq_false_iff, decide_eq_false_iff_not]; omega)
        omega

/-- Busy intervals of the single whole-day event on day 0. -/
lemma wholeDay_busy : _busy_intervals_for_date [wholeDayEvent] 0 = [(0, 1440)] := by
  decide

/-- The single whole-day event covers day 0. -/
lemma wholeDay_covers : covers_day [wholeDayEvent] 0 := by
  intro t h1 h2
  simp only [day_start_of, day_end_of] at h1 h2
  refine ⟨(0, 1440), ?_, by omega⟩
  rw [wholeDay_busy]
  simp

set_option maxRecDepth 4000 in
/-- Busy intervals of the 202-event family on day 0. -/
lemma manySmall_busy : _busy_intervals_for_date manySmallEvents 0 = manySmallIntervals := by
  decide

/-- The 202-event family covers day 0. -/
lemma manySmall_covers : covers_day manySmallEvents 0 := by
  intro t h1 h2
  simp only [day_start_of, day_end_of] at h1 h2
  rw [manySmall_busy]
  simp only [manySmallIntervals]
  by_cases ht : t ≤ 200
  · have ht1 : t.toNat < 201 := by omega
    have htn : (t.toNat : Int) = t := Int.toNat_of_nonneg (by omega)
    have hmem : ((t.toNat : Int), (t.toNat : Int) + 1)
        ∈ (List.range 201).map (fun i : Nat => ((i : Int), (i : Int) + 1)) :=
      List.mem_map_of_mem _ (List.mem_range.2 ht1)
    rw [htn] at hmem
    exact ⟨(t, t + 1), List.mem_append_left _ hmem, by omega⟩
  · exact ⟨(201, 1440), List.mem_append_right _ (by simp), by omega⟩

/-- C3 amended: when the busy intervals fully cover the day, the busy
list has at most 200 intervals and the duration is at most the day's
1439-minute span, find_next_free_slot returns start equal to
latestStart and end equal to day-end (hence at or before day-end),
without raising. -/
theorem c3_overbooked_amended : ∀ (events : List Event) (day p d : Int),
    0 < d → d ≤ 1439 →
    (_busy_intervals_for_date events day).length ≤ 200 →
    covers_day events day →
    (find_next_free_slot events day p d).1 = latest_start_of day d ∧
    (find_next_free_slot events day p d).2 = day_end_of day := by
  intro events day p d hd hd39 hlen hcov
  have hne : _busy_intervals_for_date events day ≠ [] := by
    obtain ⟨q, hq, _⟩ := hcov (1440 * day) (by simp only [day_start_of]; omega)
      (by simp only [day_start_of, day_end_of]; omega)
    intro h
    rw [h] at hq
    exact absurd hq (List.not_mem_nil q)
  obtain ⟨qe, hqe, hqe1, hqe2⟩ := hcov (1440 * day + 1439)
    (by simp only [day_start_of]; omega) (by simp only [day_end_of]; omega)
  have hL : (if 1440 * day + 1439 - d < 1440 * day then 1440 * day else 1440 * day + 1439 - d)
      = 1440 * day + 1439 - d := by
    rw [if_neg (by omega)]
  have hstart : (find_next_free_slot events day p d).1 = latest_start_of day d := by
    simp only [find_next_free_slot]
    rw [if_neg hne, hL]
    have hres := slot_scan_covered 200 (_busy_intervals_for_date events day)
      (1440 * day + 1439 - d) d (1440 * day)
      (if 1440 * day + 1439 - d < max (1440 * day) p then 1440 * day + 1439 - d else max (1440 * day) p)
      hd (by omega)
      (by
        intro t h1 h2
        obtain ⟨q, hq, hq1, hq2⟩ := hcov t (by simpa [day_start_of] using h1)
          (by simp only [day_end_of]; omega)
        exact ⟨q, hq, hq1, hq2⟩)
      (by have := le_max_left (1440 * day) p; split <;> omega)
      (by have := le_max_left (1440 * day) p; split <;> omega)
      (by
        have hstrict := length_filter_strict
          (fun q => decide ((if 1440 * day + 1439 - d < max (1440 * day) p
              then 1440 * day + 1439 - d else max (1440 * day) p) < q.2)
            && decide (q.2 ≤ 1440 * day + 1439 - d))
          (fun _ => true)
          (by intro x _; rfl)
          (_busy_intervals_for_date events day) qe hqe rfl
          (by simp only [Bool.and_eq_false_iff, decide_eq_false_iff_not]; omega)
        have hall : (List.filter (fun _ => true) (_busy_intervals_for_date events day)).length
            = (_busy_intervals_for_date events day).length := by simp
        omega)
    rw [hres]
    simp only [latest_start_of, day_end_of, day_start_of]
    omega
  refine ⟨hstart, ?_⟩
  have hsub : (find_next_free_slot events day p d).2
      - (find_next_free_slot events day p d).1 = d := by
    simp only [find_next_free_slot]
    rw [if_neg hne]
    have := slot_scan_snd 200 (_busy_intervals_for_date events day)
      (if 1440 * day + 1439 - d < 1440 * day then 1440 * day else 1440 * day + 1439 - d)
      d
      (if (if 1440 * day + 1439 - d < 1440 * day then 1440 * day else 1440 * day + 1439 - d) <
            max (1440 * day) p
        then (if 1440 * day + 1439 - d < 1440 * day then 1440 * day else 1440 * day + 1439 - d)
        else max (1440 * day) p)
    omega
  rw [hstart] at hsub
  simp only [latest_start_of, day_end_of, day_start_of] at hsub ⊢
  omega

/-- Witness for the amended C3: the whole-day event, a 100-minute
request at 09:00, one interval, duration within the day. -/
theorem c3_overbooked_amended_witness :
    (find_next_free_slot [wholeDayEvent] 0 540 100).1 = latest_start_of 0 100 ∧
    (find_next_free_slot [wholeDayEvent] 0 540 100).2 = day_end_of 0 :=
  c3_overbooked_amended [wholeDayEvent] 0 540 100 (by norm_num) (by norm_num)
    (by decide) wholeDay_covers

set_option maxRecDepth 4000 in
/-- Counterexample to C3 as stated: a fully covered day 0 with a
2000-minute request ends past 23:59, and a fully covered day 0 made of
202 intervals exhausts the 200-round cap and returns start 200 instead
of latestStart 1438. -/
theorem c3_overbooked_counterexample :
    (covers_day [wholeDayEvent] 0 ∧
      day_end_of 0 < (find_next_free_slot [wholeDayEvent] 0 0 2000).2) ∧
    (covers_day manySmallEvents 0 ∧
      (find_next_free_slot manySmallEvents 0 0 1).1 ≠ latest_start_of 0 1) :=
  ⟨⟨wholeDay_covers, by decide⟩, ⟨manySmall_covers, by decide⟩⟩

/-- The format loop is the first-success search over the candidate
list, where a candidate succeeds only when it consumes the whole
text. -/
lemma try_formats_eq : ∀ (fs : List (List Char → Option (TimeHM × List Char))) (cs : List Char),
    try_formats fs cs = fs.findSome? fun f =>
      match f cs with
      | some (t, []) => some t
      | _ => none := by
  intro fs cs
  induction fs with
  | nil => rfl
  | cons f fs ih =>
    rw [try_formats, List.findSome?_cons]
    rcases hf : f cs with _ | ⟨t, _ | ⟨c, rest⟩⟩ <;> simp [hf, ih]

/-- C9: _parse_time_12h returns the first candidate format that parses
the cleaned text in full and the fallback when none does (so no failure
escapes), parses the text 9:15 AM to 09:15, and returns the fallback
unchanged on the text garbage. -/
theorem c9_parse_time_12h :
    (∀ (s : List Char) (fb : TimeHM),
      _parse_time_12h s fb =
        (candidate_runs.findSome? fun f =>
          match f (removeDots (upperChars (stripChars s))) with
          | some (t, []) => some t
          | _ => none).getD fb) ∧
    (∀ fb : TimeHM, _parse_time_12h ['9', ':', '1', '5', ' ', 'A', 'M'] fb = ⟨9, 15⟩) ∧
    (∀ fb : TimeHM, _parse_time_12h ['g', 'a', 'r', 'b', 'a', 'g', 'e'] fb = fb) := by
  refine ⟨?_, fun fb => rfl, fun fb => rfl⟩
  intro s fb
  simp only [_parse_time_12h]
  rw [← try_formats_eq]
  by_cases h : removeDots (upperChars (stripChars s)) = []
  · rw [if_pos h, h]
    rfl
  · rw [if_neg h]
    cases hT : try_formats candidate_runs (removeDots (upperChars (stripChars s))) with
    | none => rfl
    | some t => rfl
